import Mathlib

/-!
Verification of the playback-queue and session-state engine of the Sargam/Zync
music player (`src/app/page.tsx`).  The queue operations, the storage
load/persist logic, the playlist creation logic and the derived current-song
selector are embedded as executable Lean functions translated directly from
the TypeScript source; the specified invariants and scenarios are then proved
(or refuted) about these functions.
-/

namespace Sargam

/-- A song entry (`type Track` in `src/app/page.tsx`).  The optional Lean
fields mirror the optional TypeScript fields `isLocal?: boolean` and
`origin?: string`. -/
structure Track where
  id : String
  title : String
  artist : String
  artwork : String
  audio : String
  isLocal : Option Bool := none
  origin : Option String := none
deriving DecidableEq, Repr

/-- `DEFAULT_ARTWORK` constant from the source. -/
def DEFAULT_ARTWORK : String := "https://placehold.co/300x300?text=Sargam"

/-- `DEFAULT_AUDIO` constant from the source. -/
def DEFAULT_AUDIO : String := "https://samplelib.com/lib/preview/mp3/sample-3s.mp3"

/-- `FALLBACK_TRACK` constant from the source: the well-known placeholder
track used whenever no stored queue is available. -/
def FALLBACK_TRACK : Track :=
  { id := "demo-track", title := "Raabta (Demo)", artist := "Arijit Singh",
    artwork := DEFAULT_ARTWORK, audio := DEFAULT_AUDIO }

instance : Inhabited Track := ⟨FALLBACK_TRACK⟩

/-- The queue-related part of the session state owned by the component:
the `queue`, `currentIndex` and `isPlaying` `useState` cells.
`currentIndex` is a JS number that the code never range-checks on load, so it
is modelled as an unrestricted integer. -/
structure QueueState where
  queue : List Track
  currentIndex : Int
  isPlaying : Bool
deriving DecidableEq, Repr

/-- JS `Array.prototype.findIndex` specialised to the id-matching predicate
used throughout the source (`(item) => item.id === song.id`): the first index
whose id equals `pid`, and `-1` when there is none. -/
def findIndex (l : List Track) (pid : String) : Int :=
  match l with
  | [] => -1
  | t :: ts =>
    if t.id = pid then 0
    else
      let r := findIndex ts pid
      if r < 0 then -1 else r + 1

/-- `findIndexOrFallback` from the source: the index of `trackId` in `list`,
falling back to the last position (`list.length - 1`) when absent. -/
def findIndexOrFallback (list : List Track) (trackId : String) : Int :=
  let idx := findIndex list trackId
  if 0 ≤ idx then idx else (list.length : Int) - 1

/-- `handlePlaySong` (playTrack): when `sourceList` is supplied and non-empty
it replaces the queue, otherwise the queue is kept; the new index is the
position of `song.id` in the resulting queue, defaulting to `0`; playback is
started.  (The JS truthiness test `sourceList?.length` is the
supplied-and-non-empty test.) -/
def handlePlaySong (s : QueueState) (song : Track) (sourceList : Option (List Track)) :
    QueueState :=
  let nextQueue :=
    match sourceList with
    | some l => if l.length ≠ 0 then l else s.queue
    | none => s.queue
  let index := findIndex nextQueue song.id
  let nextIndex := if 0 ≤ index then index else 0
  { queue := nextQueue, currentIndex := nextIndex, isPlaying := true }

/-- `handleAppendToQueue` (enqueue): appends `song` unless a track with the
same id is already queued, then sets `currentIndex` via `findIndexOrFallback`
on the resulting queue.  It does not touch `isPlaying`. -/
def handleAppendToQueue (s : QueueState) (song : Track) : QueueState :=
  let alreadyQueued := s.queue.any fun item => item.id == song.id
  let updated := if alreadyQueued then s.queue else s.queue ++ [song]
  { s with queue := updated, currentIndex := findIndexOrFallback updated song.id }

/-- `goToNext` (next): advances to `(currentIndex + 1) % queue.length` and
starts playback.  JS `%` is the truncated remainder, hence `Int.tmod`.
(For `queue.length = 0` JS produces `NaN`; every statement proved below is
restricted to non-empty queues, where the two semantics agree.) -/
def goToNext (s : QueueState) : QueueState :=
  { s with currentIndex := (s.currentIndex + 1).tmod (s.queue.length : Int),
           isPlaying := true }

/-- `goToPrev` (previous): moves to `queue.length - 1` when at `0`, else one
step back, and starts playback. -/
def goToPrev (s : QueueState) : QueueState :=
  { s with
    currentIndex :=
      if s.currentIndex = 0 then (s.queue.length : Int) - 1 else s.currentIndex - 1,
    isPlaying := true }

/-- `handleEnd` (the `ended` audio-event handler, the track-finished signal):
computes `(currentIndex + 1) % queue.length`, persists it with the unchanged
queue and forces `isPlaying = true`. -/
def handleEnd (s : QueueState) : QueueState :=
  { s with currentIndex := (s.currentIndex + 1).tmod (s.queue.length : Int),
           isPlaying := true }

/-- The queue-row Play button (jumpTo): `persistQueue(queue, index)` followed
by `setIsPlaying(true)`; the index comes from enumerating the rendered queue,
so the caller guarantees it is in range. -/
def jumpTo (s : QueueState) (index : Int) : QueueState :=
  { s with currentIndex := index, isPlaying := true }

/-- Shape of a successfully parsed stored queue record.  The source accesses
`parsed.queue?.length` and `parsed.index ?? 0`, so both fields may be absent
and are modelled as options. -/
structure StoredQueueRecord where
  queue : Option (List Track)
  index : Option Int
deriving DecidableEq, Repr

/-- The `sargam_queue_state` localStorage cell: `none` means absent,
`some none` means present but not parseable as a record (JSON.parse throws or
yields a non-object), `some (some r)` means it parses to record `r`. -/
abbrev StoredQueueCell := Option (Option StoredQueueRecord)

/-- The `useState` initializer for `queue`: the stored queue when present,
parseable and non-empty, otherwise `[FALLBACK_TRACK]`. -/
def loadQueue : StoredQueueCell → List Track
  | some (some r) =>
    match r.queue with
    | some q => if q.length ≠ 0 then q else [FALLBACK_TRACK]
    | none => [FALLBACK_TRACK]
  | some none => [FALLBACK_TRACK]
  | none => [FALLBACK_TRACK]

/-- The `useState` initializer for `currentIndex`: `parsed.index ?? 0` when
the record parses, otherwise `0`.  No range check is performed. -/
def loadIndex : StoredQueueCell → Int
  | some (some r) => r.index.getD 0
  | some none => 0
  | none => 0

/-- Session-start state assembled from the two initializers reading the same
stored cell; playback starts paused. -/
def initState (stored : StoredQueueCell) : QueueState :=
  { queue := loadQueue stored, currentIndex := loadIndex stored, isPlaying := false }

/-- `persistQueue`'s storage write: `JSON.stringify({queue, index})` stored
under the queue key, which reads back as a record with both fields present. -/
def persistQueue (nextQueue : List Track) (nextIndex : Int) : StoredQueueCell :=
  some (some { queue := some nextQueue, index := some nextIndex })

/-- JS element access `queue[i]` for an integer index: `some` element when
`0 ≤ i < queue.length`, otherwise `undefined` (`none`). -/
def jsGet (q : List Track) (i : Int) : Option Track :=
  if 0 ≤ i then q.get? i.toNat else none

/-- The derived `currentSong` value:
`queue[currentIndex] ?? queue[0] ?? FALLBACK_TRACK`. -/
def currentSong (queue : List Track) (currentIndex : Int) : Track :=
  match jsGet queue currentIndex with
  | some t => t
  | none =>
    match jsGet queue 0 with
    | some t => t
    | none => FALLBACK_TRACK

/-- `handleVolume`: `Math.min(Math.max(value, 0), 1)` stored as the new
volume.  Volume is a JS number; rationals model the reachable values. -/
def handleVolume (value : Rat) : Rat := min (max value 0) 1

/-- Modelled from the spec words `clamp(v, 0, 1)` (for comparison with the
source-derived `handleVolume`): clamping `v` into `[lo, hi]`. -/
def clampSpec (v lo hi : Rat) : Rat := max lo (min v hi)

/-- A named playlist (`type Playlist` in the source). -/
structure Playlist where
  name : String
  description : Option String
  songs : List Track
  createdAt : String
  updatedAt : String
deriving DecidableEq, Repr

/-- The spec's error taxonomy for playlist creation (§7); the source reports
these as error toasts and returns without touching state. -/
inductive PlaylistError where
  | validation
  | duplicateName
deriving DecidableEq, Repr

/-- Own property names of `Object.prototype` (the standard ECMAScript set
plus the Annex B legacy accessors present in real engines).  A plain object
such as the `playlists` state (`{}`, object spreads, `JSON.parse` output)
inherits all of them, and the value read through each of them is truthy
(functions, or the `__proto__` accessor yielding an object). -/
def objectPrototypeKeys : List String :=
  ["constructor", "hasOwnProperty", "isPrototypeOf", "propertyIsEnumerable",
   "toLocaleString", "toString", "valueOf", "__proto__",
   "__defineGetter__", "__defineSetter__", "__lookupGetter__", "__lookupSetter__"]

/-- JS truthiness of the property access `playlists[name]` on a plain object:
truthy when an own entry exists (playlist objects are always truthy) or when
`name` is an inherited `Object.prototype` member (all truthy). -/
def propTruthy (playlists : List (String × Playlist)) (name : String) : Bool :=
  (playlists.lookup name).isSome || objectPrototypeKeys.contains name

/-- `createPlaylist`: rejects an empty name, rejects when the property access
`playlists[name]` is truthy (an existing entry, or a name inherited from
`Object.prototype` — see `propTruthy`), else inserts an empty playlist keyed
by name.  The collection `Record<string, Playlist>` is modelled as an
association list in insertion order (JS object spread with a fresh key
appends).  The two `new Date().toISOString()` calls happen within one
reaction step and are modelled as the single instant `now`.  The result pairs
the (possibly unchanged) collection with the reported error, if any. -/
def createPlaylist (playlists : List (String × Playlist)) (name : String)
    (description : Option String) (now : String) :
    List (String × Playlist) × Option PlaylistError :=
  if name = "" then (playlists, some .validation)
  else if propTruthy playlists name then (playlists, some .duplicateName)
  else
    (playlists ++ [(name,
      { name := name, description := description, songs := [],
        createdAt := now, updatedAt := now })], none)

/-- The §3 session invariant: the queue is non-empty and `currentIndex` is a
valid offset into it. -/
def SessionInv (s : QueueState) : Prop :=
  s.queue ≠ [] ∧ 0 ≤ s.currentIndex ∧ s.currentIndex < (s.queue.length : Int)

instance (s : QueueState) : Decidable (SessionInv s) :=
  inferInstanceAs
    (Decidable (s.queue ≠ [] ∧ 0 ≤ s.currentIndex ∧ s.currentIndex < (s.queue.length : Int)))

/-- Concrete tracks for witnesses and counterexamples. -/
def trackA : Track := { FALLBACK_TRACK with id := "a", title := "A" }

/-- Second concrete track. -/
def trackB : Track := { FALLBACK_TRACK with id := "b", title := "B" }

/-- Third concrete track. -/
def trackC : Track := { FALLBACK_TRACK with id := "c", title := "C" }

/-! Helper lemmas about `findIndex`. -/

theorem findIndex_nonneg_of_mem {l : List Track} {pid : String}
    (h : pid ∈ l.map Track.id) : 0 ≤ findIndex l pid := by
  induction l with
  | nil => simp at h
  | cons t ts ih =>
    by_cases hid : t.id = pid
    · simp [findIndex, hid]
    · have h' : pid ∈ ts.map Track.id := by
        rcases List.mem_map.mp h with ⟨a, ha, hap⟩
        rcases List.mem_cons.mp ha with ha | ha
        · exact absurd (ha ▸ hap) hid
        · exact List.mem_map.mpr ⟨a, ha, hap⟩
      have := ih h'
      simp only [findIndex, hid, if_false]
      omega

theorem findIndex_neg_of_not_mem {l : List Track} {pid : String}
    (h : pid ∉ l.map Track.id) : findIndex l pid = -1 := by
  induction l with
  | nil => rfl
  | cons t ts ih =>
    simp only [List.map_cons, List.mem_cons, not_or] at h
    obtain ⟨h1, h2⟩ := h
    have hid : ¬ t.id = pid := fun hc => h1 hc.symm
    simp [findIndex, hid, ih h2]

theorem findIndex_lt_length (l : List Track) (pid : String) (h : 0 ≤ findIndex l pid) :
    findIndex l pid < (l.length : Int) := by
  induction l with
  | nil => simp [findIndex] at h
  | cons t ts ih =>
    by_cases hid : t.id = pid
    · simp only [findIndex, hid, if_true, List.length_cons]
      push_cast
      omega
    · simp only [findIndex, hid, if_false, List.length_cons] at h ⊢
      by_cases hr : findIndex ts pid < 0
      · simp [hr] at h
      · push_neg at hr
        have := ih hr
        simp only [not_lt.mpr hr, if_false]
        push_cast
        omega

theorem findIndex_eq_indexOf {l : List Track} {pid : String}
    (h : pid ∈ l.map Track.id) :
    findIndex l pid = ((l.map Track.id).indexOf pid : Int) := by
  induction l with
  | nil => simp at h
  | cons t ts ih =>
    by_cases hid : t.id = pid
    · simp [findIndex, hid, List.indexOf_cons]
    · have h' : pid ∈ ts.map Track.id := by
        rcases List.mem_map.mp h with ⟨a, ha, hap⟩
        rcases List.mem_cons.mp ha with ha | ha
        · exact absurd (ha ▸ hap) hid
        · exact List.mem_map.mpr ⟨a, ha, hap⟩
      have hnn := findIndex_nonneg_of_mem h'
      simp only [findIndex, hid, if_false, not_lt.mpr hnn, List.map_cons,
        List.indexOf_cons]
      have hbeq : (t.id == pid) = false := by
        simpa using hid
      simp only [hbeq, cond_false, not_lt.mpr hnn, if_false]
      rw [ih h']
      push_cast
      ring

theorem mem_of_any_id {l : List Track} {pid : String} :
    (l.any fun item => item.id == pid) = true ↔ pid ∈ l.map Track.id := by
  simp only [List.any_eq_true, beq_iff_eq, List.mem_map]

theorem tmod_eq_emod_of_nonneg (a b : Int) (ha : 0 ≤ a) (hb : 0 ≤ b) :
    a.tmod b = a % b := by
  obtain ⟨m, rfl⟩ := Int.eq_ofNat_of_zero_le ha
  obtain ⟨n, rfl⟩ := Int.eq_ofNat_of_zero_le hb
  rfl

theorem loadQueue_ne_nil (c : StoredQueueCell) : loadQueue c ≠ [] := by
  match c with
  | none => simp [loadQueue]
  | some none => simp [loadQueue]
  | some (some r) =>
    match hr : r.queue with
    | none => simp [loadQueue, hr]
    | some q =>
      simp only [loadQueue, hr]
      split
      · next hq => exact fun hc => hq (by simp [hc])
      · simp

/-! Projection lemmas, definitional consequences of the operation bodies. -/

theorem handlePlaySong_queue_none (s : QueueState) (song : Track) :
    (handlePlaySong s song none).queue = s.queue := rfl

theorem handlePlaySong_queue_some (s : QueueState) (song : Track) (l : List Track) :
    (handlePlaySong s song (some l)).queue = if l.length ≠ 0 then l else s.queue := rfl

theorem handlePlaySong_currentIndex (s : QueueState) (song : Track)
    (sourceList : Option (List Track)) :
    (handlePlaySong s song sourceList).currentIndex =
      if 0 ≤ findIndex (handlePlaySong s song sourceList).queue song.id
      then findIndex (handlePlaySong s song sourceList).queue song.id
      else 0 := rfl

theorem handleAppendToQueue_queue (s : QueueState) (song : Track) :
    (handleAppendToQueue s song).queue =
      if (s.queue.any fun item => item.id == song.id) then s.queue
      else s.queue ++ [song] := rfl

theorem handleAppendToQueue_currentIndex (s : QueueState) (song : Track) :
    (handleAppendToQueue s song).currentIndex =
      findIndexOrFallback (handleAppendToQueue s song).queue song.id := rfl

theorem lookup_append_singleton (ps : List (String × Playlist)) (nm : String) (pl : Playlist) :
    ((ps ++ [(nm, pl)]).lookup nm).isSome := by
  induction ps with
  | nil => simp [List.lookup]
  | cons p ps ih =>
    obtain ⟨k, v⟩ := p
    by_cases hk : (nm == k) = true
    · simp [List.lookup, hk]
    · have hk' : (nm == k) = false := Bool.eq_false_iff.mpr hk
      simp only [List.cons_append, List.lookup, hk']
      exact ih

/-! Now the claims. -/

/-- C1 counterexample: a well-formed stored record whose index is out of range
for its queue is loaded verbatim, so right after session-start initialization
the queue is non-empty yet `currentIndex` is not a valid offset. -/
theorem c1_counterexample :
    0 < (initState (some (some { queue := some [trackA], index := some 5 }))).queue.length ∧
    ¬ (0 ≤ (initState (some (some { queue := some [trackA], index := some 5 }))).currentIndex ∧
       (initState (some (some { queue := some [trackA], index := some 5 }))).currentIndex <
         ((initState (some (some { queue := some [trackA], index := some 5 }))).queue.length : Int)) := by
  decide

/-- C1 (amended): the invariant `queue ≠ [] ∧ 0 ≤ currentIndex < queue.length`
is preserved by every queue/index mutation (playTrack, enqueue, next,
previous, jumpTo with an in-range index, track-finished), and it holds after
session-start initialization from an absent or malformed stored record; for a
well-formed stored record it holds exactly when the stored index is in range
of the loaded queue, since the initializers perform no range check. -/
theorem c1_invariant_amended (s : QueueState) (song : Track)
    (sourceList : Option (List Track)) (j : Int) (r : StoredQueueRecord)
    (h : SessionInv s) (hj1 : 0 ≤ j) (hj2 : j < (s.queue.length : Int))
    (hr1 : 0 ≤ loadIndex (some (some r)))
    (hr2 : loadIndex (some (some r)) < ((loadQueue (some (some r))).length : Int)) :
    SessionInv (handlePlaySong s song sourceList) ∧
    SessionInv (handleAppendToQueue s song) ∧
    SessionInv (goToNext s) ∧
    SessionInv (goToPrev s) ∧
    SessionInv (jumpTo s j) ∧
    SessionInv (handleEnd s) ∧
    SessionInv (initState none) ∧
    SessionInv (initState (some none)) ∧
    SessionInv (initState (some (some r))) := by
  obtain ⟨hne, hi0, hiL⟩ := h
  have hL : (0:Int) < (s.queue.length : Int) := lt_of_le_of_lt hi0 hiL
  refine ⟨?_, ?_, ?_, ?_, ?_, ?_, by decide, by decide, ?_⟩
  · -- playTrack
    have hq : (handlePlaySong s song sourceList).queue ≠ [] := by
      cases sourceList with
      | none => rw [handlePlaySong_queue_none]; exact hne
      | some l =>
        rw [handlePlaySong_queue_some]
        split
        · next hl => exact fun hc => hl (by simp [hc])
        · exact hne
    have hlen : (0:Int) < ((handlePlaySong s song sourceList).queue.length : Int) := by
      have : (handlePlaySong s song sourceList).queue.length ≠ 0 := by
        simpa [List.length_eq_zero] using hq
      omega
    refine ⟨hq, ?_, ?_⟩
    · rw [handlePlaySong_currentIndex]
      split
      · next hge => exact hge
      · exact le_refl 0
    · rw [handlePlaySong_currentIndex]
      split
      · next hge => exact findIndex_lt_length _ _ hge
      · exact hlen
  · -- enqueue
    have hmem : song.id ∈ (handleAppendToQueue s song).queue.map Track.id := by
      rw [handleAppendToQueue_queue]
      split
      · next hb => exact mem_of_any_id.mp hb
      · simp
    have hq : (handleAppendToQueue s song).queue ≠ [] := by
      intro hc; rw [hc] at hmem; simp at hmem
    have hgen : (handleAppendToQueue s song).currentIndex
        = findIndex (handleAppendToQueue s song).queue song.id := by
      rw [handleAppendToQueue_currentIndex]
      unfold findIndexOrFallback
      rw [if_pos (findIndex_nonneg_of_mem hmem)]
    exact ⟨hq, by rw [hgen]; exact findIndex_nonneg_of_mem hmem,
      by rw [hgen]; exact findIndex_lt_length _ _ (findIndex_nonneg_of_mem hmem)⟩
  · -- next
    have heq : (goToNext s).currentIndex = (s.currentIndex + 1) % (s.queue.length : Int) :=
      tmod_eq_emod_of_nonneg _ _ (by omega) (by omega)
    refine ⟨hne, ?_, ?_⟩
    · rw [heq]; exact Int.emod_nonneg _ (ne_of_gt hL)
    · have hqq : ((goToNext s).queue.length : Int) = (s.queue.length : Int) := rfl
      rw [hqq, heq]
      exact Int.emod_lt_of_pos _ hL
  · -- previous
    refine ⟨hne, ?_, ?_⟩
    · show 0 ≤ (if s.currentIndex = 0 then (s.queue.length : Int) - 1 else s.currentIndex - 1)
      split <;> omega
    · show (if s.currentIndex = 0 then (s.queue.length : Int) - 1 else s.currentIndex - 1)
        < (s.queue.length : Int)
      split <;> omega
  · -- jumpTo
    exact ⟨hne, hj1, hj2⟩
  · -- track finished
    have heq : (handleEnd s).currentIndex = (s.currentIndex + 1) % (s.queue.length : Int) :=
      tmod_eq_emod_of_nonneg _ _ (by omega) (by omega)
    refine ⟨hne, ?_, ?_⟩
    · rw [heq]; exact Int.emod_nonneg _ (ne_of_gt hL)
    · have hqq : ((handleEnd s).queue.length : Int) = (s.queue.length : Int) := rfl
      rw [hqq, heq]
      exact Int.emod_lt_of_pos _ hL
  · -- well-formed stored record with in-range index
    exact ⟨loadQueue_ne_nil (some (some r)), hr1, hr2⟩

/-- C1 witness: the amended invariant theorem applied at a concrete valid
state, enqueue/play arguments, in-range jump index and in-range stored
record. -/
theorem c1_invariant_amended_witness :
    SessionInv { queue := [trackA, trackB], currentIndex := 0, isPlaying := false } ∧
    (0:Int) ≤ 1 ∧
    (1:Int) < ((({ queue := [trackA, trackB], currentIndex := 0, isPlaying := false } : QueueState)).queue.length : Int) ∧
    0 ≤ loadIndex (some (some { queue := some [trackA], index := some 0 })) ∧
    loadIndex (some (some { queue := some [trackA], index := some 0 })) <
      ((loadQueue (some (some { queue := some [trackA], index := some 0 }))).length : Int) ∧
    (SessionInv (handlePlaySong { queue := [trackA, trackB], currentIndex := 0, isPlaying := false } trackC none) ∧
     SessionInv (handleAppendToQueue { queue := [trackA, trackB], currentIndex := 0, isPlaying := false } trackC) ∧
     SessionInv (goToNext { queue := [trackA, trackB], currentIndex := 0, isPlaying := false }) ∧
     SessionInv (goToPrev { queue := [trackA, trackB], currentIndex := 0, isPlaying := false }) ∧
     SessionInv (jumpTo { queue := [trackA, trackB], currentIndex := 0, isPlaying := false } 1) ∧
     SessionInv (handleEnd { queue := [trackA, trackB], currentIndex := 0, isPlaying := false }) ∧
     SessionInv (initState none) ∧
     SessionInv (initState (some none)) ∧
     SessionInv (initState (some (some { queue := some [trackA], index := some 0 })))) :=
  ⟨by decide, by decide, by decide, by decide, by decide,
   c1_invariant_amended
     { queue := [trackA, trackB], currentIndex := 0, isPlaying := false } trackC none 1
     { queue := some [trackA], index := some 0 }
     (by decide) (by decide) (by decide) (by decide) (by decide)⟩

/-- C2: when the stored queue record is absent or fails to parse, the session
starts with the single fallback placeholder track and index 0. -/
theorem c2_fallback_init (stored : StoredQueueCell)
    (h : stored = none ∨ stored = some none) :
    initState stored =
      { queue := [FALLBACK_TRACK], currentIndex := 0, isPlaying := false } := by
  rcases h with rfl | rfl <;> rfl

/-- C2 witness: the fallback initialization evaluated on the absent record. -/
theorem c2_fallback_init_witness :
    ((none : StoredQueueCell) = none ∨ (none : StoredQueueCell) = some none) ∧
    initState none =
      { queue := [FALLBACK_TRACK], currentIndex := 0, isPlaying := false } :=
  ⟨Or.inl rfl, c2_fallback_init none (Or.inl rfl)⟩

/-- C3: playTrack replaces the queue with the supplied non-empty source list
(otherwise keeps the queue), sets `currentIndex` to the first position of the
track's id in the resulting queue (or 0 when absent), and starts playback. -/
theorem c3_playTrack (s : QueueState) (song : Track) (sourceList : Option (List Track)) :
    (handlePlaySong s song sourceList).isPlaying = true ∧
    (handlePlaySong s song sourceList).queue =
      (match sourceList with
       | some l => if l = [] then s.queue else l
       | none => s.queue) ∧
    (handlePlaySong s song sourceList).currentIndex =
      (if song.id ∈ (handlePlaySong s song sourceList).queue.map Track.id
       then (((handlePlaySong s song sourceList).queue.map Track.id).indexOf song.id : Int)
       else 0) := by
  refine ⟨rfl, ?_, ?_⟩
  · cases sourceList with
    | none => rfl
    | some l =>
      by_cases hl : l = []
      · subst hl; rfl
      · have hlen : l.length ≠ 0 := by simpa [List.length_eq_zero] using hl
        rw [handlePlaySong_queue_some, if_pos hlen]
        simp [hl]
  · rw [handlePlaySong_currentIndex]
    by_cases hmem : song.id ∈ (handlePlaySong s song sourceList).queue.map Track.id
    · rw [if_pos (findIndex_nonneg_of_mem hmem), if_pos hmem,
        findIndex_eq_indexOf hmem]
    · rw [findIndex_neg_of_not_mem hmem, if_neg hmem, if_neg (by omega)]

/-- C4 counterexample: enqueuing a track whose id is already queued leaves
the queue unchanged (that part of the claim holds), but `currentIndex` jumps
to the existing position of that id even though the not-found fallback of
`findIndexOrFallback` does not apply: with queue `[A, B]` and index 1,
enqueue(A) moves the index to 0. -/
theorem c4_counterexample :
    (handleAppendToQueue { queue := [trackA, trackB], currentIndex := 1, isPlaying := false } trackA).queue
      = [trackA, trackB] ∧
    0 ≤ findIndex [trackA, trackB] trackA.id ∧
    (handleAppendToQueue { queue := [trackA, trackB], currentIndex := 1, isPlaying := false } trackA).currentIndex
      ≠ 1 := by
  decide

/-- C4 (amended): enqueue leaves the queue unchanged when the id is already
present and appends otherwise; in every case it sets `currentIndex` to the
first position of the enqueued track's id in the resulting queue (the
`length - 1` fallback never fires because the id is always present
afterwards), so the index is unchanged only when that position coincides with
the old index.  `isPlaying` is untouched. -/
theorem c4_enqueue_amended (s : QueueState) (song : Track) :
    (song.id ∈ s.queue.map Track.id → (handleAppendToQueue s song).queue = s.queue) ∧
    (song.id ∉ s.queue.map Track.id →
      (handleAppendToQueue s song).queue = s.queue ++ [song]) ∧
    (handleAppendToQueue s song).currentIndex =
      (((handleAppendToQueue s song).queue.map Track.id).indexOf song.id : Int) ∧
    (handleAppendToQueue s song).isPlaying = s.isPlaying := by
  have hmem : song.id ∈ (handleAppendToQueue s song).queue.map Track.id := by
    rw [handleAppendToQueue_queue]
    split
    · next hb => exact mem_of_any_id.mp hb
    · simp
  refine ⟨?_, ?_, ?_, rfl⟩
  · intro hp
    rw [handleAppendToQueue_queue, if_pos (mem_of_any_id.mpr hp)]
  · intro hp
    rw [handleAppendToQueue_queue,
      if_neg (fun hc => hp (mem_of_any_id.mp hc))]
  · rw [handleAppendToQueue_currentIndex]
    unfold findIndexOrFallback
    rw [if_pos (findIndex_nonneg_of_mem hmem), findIndex_eq_indexOf hmem]

/-- C4 witness: the amended enqueue description evaluated on queue `[A, B]`
with index 1 and the already-present track A. -/
theorem c4_enqueue_amended_witness :
    (trackA.id ∈ ([trackA, trackB] : List Track).map Track.id →
      (handleAppendToQueue { queue := [trackA, trackB], currentIndex := 1, isPlaying := false } trackA).queue
        = [trackA, trackB]) ∧
    (trackA.id ∉ ([trackA, trackB] : List Track).map Track.id →
      (handleAppendToQueue { queue := [trackA, trackB], currentIndex := 1, isPlaying := false } trackA).queue
        = [trackA, trackB] ++ [trackA]) ∧
    (handleAppendToQueue { queue := [trackA, trackB], currentIndex := 1, isPlaying := false } trackA).currentIndex =
      ((((handleAppendToQueue { queue := [trackA, trackB], currentIndex := 1, isPlaying := false } trackA).queue.map Track.id).indexOf trackA.id : Int)) ∧
    (handleAppendToQueue { queue := [trackA, trackB], currentIndex := 1, isPlaying := false } trackA).isPlaying = false :=
  c4_enqueue_amended { queue := [trackA, trackB], currentIndex := 1, isPlaying := false } trackA

/-- C5: the track-finished handler equals next() with `isPlaying` forced to
true; on a valid state it keeps the queue, advances the index to
`(currentIndex + 1) mod queue.length` and sets `isPlaying`. -/
theorem c5_track_finished (s : QueueState) (_hne : s.queue ≠ [])
    (h2 : 0 ≤ s.currentIndex) (_hlt : s.currentIndex < (s.queue.length : Int)) :
    handleEnd s = { goToNext s with isPlaying := true } ∧
    (handleEnd s).queue = s.queue ∧
    (handleEnd s).currentIndex = (s.currentIndex + 1) % (s.queue.length : Int) ∧
    (handleEnd s).isPlaying = true := by
  refine ⟨rfl, rfl, ?_, rfl⟩
  exact tmod_eq_emod_of_nonneg _ _ (by omega) (by omega)

/-- C5 witness: with queue `[A, B, C]` and index 2 the track-finished signal
wraps the index to 0 and plays. -/
theorem c5_track_finished_witness :
    ([trackA, trackB, trackC] ≠ ([] : List Track)) ∧
    (0 : Int) ≤ 2 ∧
    (2 : Int) < (([trackA, trackB, trackC] : List Track).length : Int) ∧
    (handleEnd { queue := [trackA, trackB, trackC], currentIndex := 2, isPlaying := false }).currentIndex = 0 ∧
    (handleEnd { queue := [trackA, trackB, trackC], currentIndex := 2, isPlaying := false }).isPlaying = true :=
  ⟨by decide, by decide, by decide,
   by rw [(c5_track_finished
       { queue := [trackA, trackB, trackC], currentIndex := 2, isPlaying := false }
       (by decide) (by decide) (by decide)).2.2.1]; decide,
   (c5_track_finished
       { queue := [trackA, trackB, trackC], currentIndex := 2, isPlaying := false }
       (by decide) (by decide) (by decide)).2.2.2⟩

theorem goToNext_iterate (s : QueueState) (h2 : 0 ≤ s.currentIndex)
    (h3 : s.currentIndex < (s.queue.length : Int)) (n : Nat) :
    (goToNext^[n] s).queue = s.queue ∧
    (goToNext^[n] s).currentIndex = (s.currentIndex + n) % (s.queue.length : Int) := by
  have hL : (0:Int) < (s.queue.length : Int) := lt_of_le_of_lt h2 h3
  induction n with
  | zero =>
    refine ⟨by simp, ?_⟩
    simp only [Function.iterate_zero, id_eq, Nat.cast_zero, add_zero]
    exact (Int.emod_eq_of_lt h2 h3).symm
  | succ n ih =>
    obtain ⟨hq, hi⟩ := ih
    rw [Function.iterate_succ_apply']
    have hqq : (goToNext (goToNext^[n] s)).queue = (goToNext^[n] s).queue := rfl
    refine ⟨by rw [hqq, hq], ?_⟩
    have hnn : 0 ≤ (goToNext^[n] s).currentIndex := by
      rw [hi]; exact Int.emod_nonneg _ (ne_of_gt hL)
    have hstep : (goToNext (goToNext^[n] s)).currentIndex
        = ((goToNext^[n] s).currentIndex + 1).tmod (((goToNext^[n] s).queue.length : Int)) := rfl
    rw [hstep, hq, tmod_eq_emod_of_nonneg _ _ (by omega) (le_of_lt hL), hi,
      Int.emod_add_emod]
    congr 1
    push_cast
    ring

/-- C6: next() applied `queue.length` times returns the index to its start,
and for queues of length at least 2, previous() then next() as well as
next() then previous() return to the original index. -/
theorem c6_cyclic (s : QueueState) (_h1 : s.queue ≠ [])
    (h2 : 0 ≤ s.currentIndex) (h3 : s.currentIndex < (s.queue.length : Int)) :
    (goToNext^[s.queue.length] s).currentIndex = s.currentIndex ∧
    (2 ≤ s.queue.length →
      (goToNext (goToPrev s)).currentIndex = s.currentIndex ∧
      (goToPrev (goToNext s)).currentIndex = s.currentIndex) := by
  have hL : (0:Int) < (s.queue.length : Int) := lt_of_le_of_lt h2 h3
  constructor
  · obtain ⟨hq, hi⟩ := goToNext_iterate s h2 h3 s.queue.length
    rw [hi]
    have hself : (s.currentIndex + (s.queue.length : Int)) % (s.queue.length : Int)
        = s.currentIndex % (s.queue.length : Int) := by
      have hmul := Int.add_mul_emod_self_left s.currentIndex (s.queue.length : Int) 1
      rw [mul_one] at hmul
      exact hmul
    rw [hself, Int.emod_eq_of_lt h2 h3]
  · intro hlen
    have hL2 : (2:Int) ≤ (s.queue.length : Int) := by exact_mod_cast hlen
    constructor
    · by_cases h0 : s.currentIndex = 0
      · have hpi : (goToPrev s).currentIndex = (s.queue.length : Int) - 1 := by
          simp [goToPrev, h0]
        have hstep : (goToNext (goToPrev s)).currentIndex
            = ((goToPrev s).currentIndex + 1).tmod (s.queue.length : Int) := rfl
        rw [hstep, hpi, tmod_eq_emod_of_nonneg _ _ (by omega) (by omega)]
        have harith : (s.queue.length : Int) - 1 + 1 = (s.queue.length : Int) := by ring
        rw [harith, Int.emod_self, h0]
      · have hpi : (goToPrev s).currentIndex = s.currentIndex - 1 := by
          simp [goToPrev, h0]
        have hstep : (goToNext (goToPrev s)).currentIndex
            = ((goToPrev s).currentIndex + 1).tmod (s.queue.length : Int) := rfl
        rw [hstep, hpi, tmod_eq_emod_of_nonneg _ _ (by omega) (by omega)]
        have harith : s.currentIndex - 1 + 1 = s.currentIndex := by ring
        rw [harith, Int.emod_eq_of_lt h2 h3]
    · have hni : (goToNext s).currentIndex = (s.currentIndex + 1) % (s.queue.length : Int) :=
        tmod_eq_emod_of_nonneg _ _ (by omega) (by omega)
      by_cases htop : s.currentIndex = (s.queue.length : Int) - 1
      · have hzero : (goToNext s).currentIndex = 0 := by
          rw [hni, htop]
          have harith : (s.queue.length : Int) - 1 + 1 = (s.queue.length : Int) := by ring
          rw [harith, Int.emod_self]
        have hgoal : (goToPrev (goToNext s)).currentIndex
            = ((goToNext s).queue.length : Int) - 1 := by
          simp [goToPrev, hzero]
        have hqq : ((goToNext s).queue.length : Int) = (s.queue.length : Int) := rfl
        rw [hgoal, hqq, ← htop]
      · have hlt : s.currentIndex + 1 < (s.queue.length : Int) := by omega
        have hni2 : (goToNext s).currentIndex = s.currentIndex + 1 := by
          rw [hni, Int.emod_eq_of_lt (by omega) hlt]
        have hne0 : ¬ (goToNext s).currentIndex = 0 := by omega
        have hgoal : (goToPrev (goToNext s)).currentIndex
            = (goToNext s).currentIndex - 1 := by
          simp [goToPrev, hne0]
        rw [hgoal, hni2]
        ring

/-- C6 witness: the cyclic properties evaluated on the two-track queue
`[A, B]` at index 1. -/
theorem c6_cyclic_witness :
    ([trackA, trackB] ≠ ([] : List Track)) ∧
    (0 : Int) ≤ 1 ∧
    (1 : Int) < (([trackA, trackB] : List Track).length : Int) ∧
    ((goToNext^[([trackA, trackB] : List Track).length]
        { queue := [trackA, trackB], currentIndex := 1, isPlaying := false }).currentIndex = 1 ∧
     (2 ≤ ([trackA, trackB] : List Track).length →
       (goToNext (goToPrev { queue := [trackA, trackB], currentIndex := 1, isPlaying := false })).currentIndex = 1 ∧
       (goToPrev (goToNext { queue := [trackA, trackB], currentIndex := 1, isPlaying := false })).currentIndex = 1)) :=
  ⟨by decide, by decide, by decide,
   c6_cyclic { queue := [trackA, trackB], currentIndex := 1, isPlaying := false }
     (by decide) (by decide) (by decide)⟩

/-- C7: writing the queue record for any non-empty queue and any index and
reading it back with the session-start load logic returns exactly the same
queue and index.  (Every queue the controller actually persists is non-empty:
the initializers never produce an empty queue and no operation empties it.) -/
theorem c7_round_trip (q : List Track) (i : Int) (h : q ≠ []) :
    loadQueue (persistQueue q i) = q ∧ loadIndex (persistQueue q i) = i := by
  refine ⟨?_, rfl⟩
  have hq : q.length ≠ 0 := by simpa [List.length_eq_zero] using h
  simp [loadQueue, persistQueue, hq]

/-- C7 witness: the round trip evaluated on the singleton queue `[A]` with
index 4. -/
theorem c7_round_trip_witness :
    ([trackA] ≠ ([] : List Track)) ∧
    loadQueue (persistQueue [trackA] 4) = [trackA] ∧
    loadIndex (persistQueue [trackA] 4) = 4 :=
  ⟨by decide, c7_round_trip [trackA] 4 (by decide)⟩

/-- C8: the stored volume after `setVolume(v)` is exactly `clamp(v, 0, 1)`
and always lies in `[0, 1]`; out-of-range inputs are clamped, never
rejected. -/
theorem c8_volume_clamp (v : Rat) :
    handleVolume v = clampSpec v 0 1 ∧ 0 ≤ handleVolume v ∧ handleVolume v ≤ 1 := by
  refine ⟨?_, le_min (le_max_right v 0) zero_le_one, min_le_right _ _⟩
  unfold handleVolume clampSpec
  rcases le_total v 0 with h0 | h0
  · rw [max_eq_right h0, min_eq_left (h0.trans zero_le_one),
      min_eq_left zero_le_one, max_eq_left h0]
  · rcases le_total v 1 with hv1 | hv1
    · rw [max_eq_left h0, min_eq_left hv1, max_eq_right h0]
    · rw [max_eq_left (zero_le_one.trans hv1), min_eq_right hv1,
        max_eq_right zero_le_one]

/-- Characterization of the JS truthiness test used by createPlaylist. -/
theorem propTruthy_eq_true_iff (ps : List (String × Playlist)) (nm : String) :
    propTruthy ps nm = true ↔ (ps.lookup nm).isSome ∨ nm ∈ objectPrototypeKeys := by
  simp [propTruthy]

/-- C9 counterexample: with the empty collection, create("toString") is
rejected as a duplicate and nothing is inserted, although the name is
non-empty and no playlist with that name exists — the duplicate check is the
truthiness of `playlists[name]`, and `Object.prototype.toString` is inherited
and truthy. -/
theorem c9_counterexample :
    ("toString" : String) ≠ "" ∧
    (([] : List (String × Playlist)).lookup "toString") = none ∧
    createPlaylist [] "toString" none "t0" = ([], some .duplicateName) := by
  decide

/-- C9 (amended): createPlaylist rejects an empty name with a validation
error; it rejects with the duplicate-name error both an already-existing name
and any name inherited from `Object.prototype` (the check is the truthiness
of the property access `playlists[name]`), leaving the collection unchanged
in every failure case; for every other non-empty name it appends a fresh
empty playlist with `createdAt = updatedAt = now`; and creating the same name
again right after a successful creation fails with the duplicate-name error
while the collection has grown by exactly one entry. -/
theorem c9_createPlaylist (ps : List (String × Playlist)) (nm : String)
    (d : Option String) (now later : String) :
    (nm = "" → createPlaylist ps nm d now = (ps, some .validation)) ∧
    (nm ≠ "" → ((ps.lookup nm).isSome ∨ nm ∈ objectPrototypeKeys) →
      createPlaylist ps nm d now = (ps, some .duplicateName)) ∧
    (nm ≠ "" → ps.lookup nm = none → nm ∉ objectPrototypeKeys →
      createPlaylist ps nm d now =
        (ps ++ [(nm, { name := nm, description := d, songs := [],
                       createdAt := now, updatedAt := now })], none)) ∧
    (∀ qs : List (String × Playlist),
      createPlaylist ps nm d now = (qs, none) →
        createPlaylist qs nm d later = (qs, some .duplicateName) ∧
        qs.length = ps.length + 1) := by
  refine ⟨?_, ?_, ?_, ?_⟩
  · intro h; simp [createPlaylist, h]
  · intro h1 h2
    have hp : propTruthy ps nm = true := (propTruthy_eq_true_iff ps nm).mpr h2
    simp [createPlaylist, h1, hp]
  · intro h1 h2 h3
    have hp : propTruthy ps nm = false := by
      rw [Bool.eq_false_iff]
      intro hc
      rcases (propTruthy_eq_true_iff ps nm).mp hc with hcase | hcase
      · rw [h2] at hcase; simp at hcase
      · exact h3 hcase
    simp [createPlaylist, h1, hp]
  · intro qs hq
    unfold createPlaylist at hq
    split_ifs at hq with hif1 hif2
    · exact absurd (congrArg Prod.snd hq) (by simp)
    · exact absurd (congrArg Prod.snd hq) (by simp)
    · injection hq with hql hqr
      subst hql
      constructor
      · have hs := lookup_append_singleton ps nm
          { name := nm, description := d, songs := [], createdAt := now, updatedAt := now }
        have hp2 : propTruthy (ps ++ [(nm,
            { name := nm, description := d, songs := [],
              createdAt := now, updatedAt := now })]) nm = true :=
          (propTruthy_eq_true_iff _ _).mpr (Or.inl hs)
        simp [createPlaylist, hif1, hp2]
      · simp

/-- C9 witness: creating "Road Trip" in the empty collection succeeds with
equal timestamps, and creating it again immediately fails with the
duplicate-name error while the collection keeps its single entry. -/
theorem c9_createPlaylist_witness :
    createPlaylist [] "Road Trip" none "t0" =
      ([("Road Trip", { name := "Road Trip", description := none, songs := [],
                        createdAt := "t0", updatedAt := "t0" })], none) ∧
    createPlaylist
        [("Road Trip", { name := "Road Trip", description := none, songs := [],
                         createdAt := "t0", updatedAt := "t0" })] "Road Trip" none "t1" =
      ([("Road Trip", { name := "Road Trip", description := none, songs := [],
                        createdAt := "t0", updatedAt := "t0" })],
       some .duplicateName) := by
  have h := c9_createPlaylist [] "Road Trip" none "t0" "t1"
  have hok := h.2.2.1 (by decide) rfl (by decide)
  exact ⟨hok, (h.2.2.2 _ hok).1⟩

/-- C10: the derived current song is total — it is the element at
`currentIndex` when that index is valid, otherwise the first queue element
when the queue is non-empty, otherwise the fallback placeholder track. -/
theorem c10_currentSong_total (q : List Track) (i : Int) :
    currentSong q i =
      if h : 0 ≤ i ∧ i.toNat < q.length then q.get ⟨i.toNat, h.2⟩
      else if q = [] then FALLBACK_TRACK else q.headI := by
  by_cases hi : 0 ≤ i
  · by_cases hn : i.toNat < q.length
    · rw [dif_pos ⟨hi, hn⟩]
      have hj : jsGet q i = some (q.get ⟨i.toNat, hn⟩) := by
        simp [jsGet, hi, List.get?_eq_get hn]
      simp [currentSong, hj]
    · have hnone : jsGet q i = none := by
        simp only [jsGet, if_pos hi]
        rw [List.get?_eq_none]
        omega
      rw [dif_neg (fun hc => hn hc.2)]
      cases q with
      | nil => simp [currentSong, hnone, jsGet]
      | cons a as =>
        have h0 : jsGet (a :: as) 0 = some a := by simp [jsGet]
        simp [currentSong, hnone, h0]
  · have hnone : jsGet q i = none := by simp [jsGet, hi]
    rw [dif_neg (fun hc => hi hc.1)]
    cases q with
    | nil => simp [currentSong, hnone, jsGet]
    | cons a as =>
      have h0 : jsGet (a :: as) 0 = some a := by simp [jsGet]
      simp [currentSong, hnone, h0]

end Sargam
